import Mathlib

/-
Verification of the SEO-Tool GSC analytics repository (src/routes/clusters.py
and friends) against its natural-language specification.

Shallow embedding conventions:
- Mongo ObjectIds, user ids and timestamps are modelled as Nat.
- Dates are modelled as Nat; in the code dates are ISO yyyy-mm-dd strings
  whose lexicographic order coincides with chronological order, so Nat with
  its order is a faithful abstraction for range queries and sorting.
- GSC metric values (clicks, impressions, position) and the derived ctr are
  modelled as rationals: the Python code manipulates them as numbers with
  exact + and * and a guarded /.
- A Mongo document is a record; a field that the code may leave absent on a
  document (the deleted / deletedAt fields of link_performance documents,
  which the upsert path never writes) is an Option, none meaning the field
  is absent.  The Mongo filter (deleted ne true) matches documents where
  the field is absent or not true, which the embedding mirrors.
- update_many is a map over the collection guarded by the filter;
  update_one updates the first matching document, which updateFirst mirrors;
  find(..).distinct(id) is used by the code only to feed an in-membership
  filter, for which deduplication is transparent, so it is modelled as the
  plain list of ids.
- The HTTP / session / flash-message glue is out of scope (the spec excludes
  it); each handler is modelled by its effect on the database state on the
  paths the claims talk about, with the guards (find_one checks) kept.
-/

namespace SEO

/-- One raw per-date row returned by the GSC searchanalytics query for one
(country, device) filter combination.  Missing numeric keys default to 0 in
the code (row.get with default), so the fields are total here. -/
structure GSCRow where
  date : Nat
  clicks : ℚ
  impressions : ℚ
  position : ℚ
deriving DecidableEq, Repr

/-- The per-date accumulator of fetch_3months_gsc_data_for_link
(clusters.py lines 745-753): running clicks, impressions and
position-times-impressions sums. -/
structure Acc where
  clicks : ℚ
  impressions : ℚ
  weighted_position_sum : ℚ
deriving DecidableEq, Repr

/-- The zero accumulator installed when a date is first seen
(clusters.py lines 746-750). -/
def Acc.zero : Acc := { clicks := 0, impressions := 0, weighted_position_sum := 0 }

/-- Folding one row into an accumulator (clusters.py lines 751-753). -/
def Acc.addRow (a : Acc) (r : GSCRow) : Acc :=
  { clicks := a.clicks + r.clicks
    impressions := a.impressions + r.impressions
    weighted_position_sum := a.weighted_position_sum + r.position * r.impressions }

/-- Pointwise sum of accumulators (used to state fold invariants). -/
def Acc.add (a b : Acc) : Acc :=
  { clicks := a.clicks + b.clicks
    impressions := a.impressions + b.impressions
    weighted_position_sum := a.weighted_position_sum + b.weighted_position_sum }

/-- Association-list update mirroring the Python dict idiom
(if key absent, bind it to init first, then apply f to the binding).
Python dicts preserve insertion order, hence the append at the end. -/
def updateAssoc (m : List (Nat × Acc)) (d : Nat) (f : Acc → Acc) (init : Acc) :
    List (Nat × Acc) :=
  match m with
  | [] => [(d, f init)]
  | (k, v) :: rest =>
      if k = d then (k, f v) :: rest else (k, v) :: updateAssoc rest d f init

/-- Dict lookup on the association list. -/
def lookupAcc (m : List (Nat × Acc)) (d : Nat) : Option Acc :=
  match m with
  | [] => none
  | (k, v) :: rest => if k = d then some v else lookupAcc rest d

/-- One iteration of the aggregation loop of fetch_3months_gsc_data_for_link
(clusters.py lines 740-753). -/
def aggStep (m : List (Nat × Acc)) (r : GSCRow) : List (Nat × Acc) :=
  updateAssoc m r.date (fun a => a.addRow r) Acc.zero

/-- The aggregated dict built from the fetched rows
(clusters.py lines 739-753). -/
def aggregateRows (rows : List GSCRow) : List (Nat × Acc) :=
  rows.foldl aggStep []

/-- The per-date metrics written to link_performance. -/
structure PerfMetrics where
  clicks : ℚ
  impressions : ℚ
  ctr : ℚ
  position : ℚ
deriving DecidableEq, Repr

/-- Turning an accumulator into the stored metrics
(clusters.py lines 757-761): guarded divisions, 0 when the total
impressions are 0 (Python falsiness of 0). -/
def finalize (a : Acc) : PerfMetrics :=
  { clicks := a.clicks
    impressions := a.impressions
    ctr := if a.impressions ≠ 0 then a.clicks / a.impressions else 0
    position := if a.impressions ≠ 0 then a.weighted_position_sum / a.impressions else 0 }

/-- The rows of a given date. -/
def rowsAt (rows : List GSCRow) (d : Nat) : List GSCRow :=
  rows.filter (fun r => r.date == d)

/-- Total clicks over the rows of a given date. -/
def totalClicks (rows : List GSCRow) (d : Nat) : ℚ :=
  ((rowsAt rows d).map GSCRow.clicks).sum

/-- Total impressions over the rows of a given date. -/
def totalImpressions (rows : List GSCRow) (d : Nat) : ℚ :=
  ((rowsAt rows d).map GSCRow.impressions).sum

/-- Sum of position times impressions over the rows of a given date. -/
def totalWeightedPosition (rows : List GSCRow) (d : Nat) : ℚ :=
  ((rowsAt rows d).map (fun r => r.position * r.impressions)).sum

/-- The accumulator a date should end at: the componentwise totals. -/
def accTotals (rows : List GSCRow) (d : Nat) : Acc :=
  { clicks := totalClicks rows d
    impressions := totalImpressions rows d
    weighted_position_sum := totalWeightedPosition rows d }

end SEO

namespace SEO

/-- The accumulator contribution of a single row. -/
def GSCRow.acc (r : GSCRow) : Acc :=
  { clicks := r.clicks
    impressions := r.impressions
    weighted_position_sum := r.position * r.impressions }

/-- A document of the link_performance collection.  The deleted and
deletedAt fields are optional: the upsert path of
fetch_3months_gsc_data_for_link never writes them, so a row created by it
lacks them (none); the soft-delete / restore handlers write them.  A
deletedAt of none models the field being absent or null. -/
structure PerfDoc where
  linkId : Nat
  date : Nat
  clicks : ℚ
  impressions : ℚ
  ctr : ℚ
  position : ℚ
  deleted : Option Bool
  deletedAt : Option Nat
  createdAt : Nat
  updatedAt : Nat
deriving DecidableEq, Repr

/-- The upsert filter of the bulk operation (clusters.py line 764):
it matches on linkId and date only, regardless of soft-delete state. -/
def matchesKey (lid d : Nat) (p : PerfDoc) : Bool :=
  p.linkId == lid && p.date == d

/-- The dollar-set part of the upsert (clusters.py lines 766-772):
overwrites the four metrics and updatedAt, touches nothing else. -/
def applySet (now : Nat) (m : PerfMetrics) (p : PerfDoc) : PerfDoc :=
  { p with clicks := m.clicks, impressions := m.impressions,
           ctr := m.ctr, position := m.position, updatedAt := now }

/-- The document inserted when the upsert filter matches nothing: the filter
equality fields, the dollar-set fields, and createdAt from dollar-setOnInsert
(clusters.py lines 762-776).  No deleted or deletedAt field is written. -/
def newPerfDoc (lid d : Nat) (m : PerfMetrics) (now : Nat) : PerfDoc :=
  { linkId := lid, date := d, clicks := m.clicks, impressions := m.impressions,
    ctr := m.ctr, position := m.position, deleted := none, deletedAt := none,
    createdAt := now, updatedAt := now }

/-- Mongo update_one semantics: transform the first document matching the
predicate, leave everything else in place. -/
def updateFirst (p : α → Bool) (f : α → α) : List α → List α
  | [] => []
  | x :: xs => if p x then f x :: xs else x :: updateFirst p f xs

/-- One UpdateOne bulk operation with upsert=true (clusters.py lines
762-777): update the first match in place, or append the new document. -/
def upsertOne (coll : List PerfDoc) (lid d : Nat) (m : PerfMetrics) (now : Nat) :
    List PerfDoc :=
  if coll.any (matchesKey lid d) then
    updateFirst (matchesKey lid d) (applySet now m) coll
  else
    coll ++ [newPerfDoc lid d m now]

/-- The whole bulk_write of the aggregation routine: one upsert per
aggregated date, in dict order (clusters.py lines 755-780). -/
def writeAggregated (coll : List PerfDoc) (lid : Nat) (aggs : List (Nat × Acc))
    (now : Nat) : List PerfDoc :=
  aggs.foldl (fun c da => upsertOne c lid da.1 (finalize da.2) now) coll

/-- Link status values written by the code (processing at insert, complete
or error from the background fetch). -/
inductive LinkStatus where
  | processing
  | complete
  | error
deriving DecidableEq, Repr

/-- A document of the clusters collection.  domain, clusterName and
deviceFilter are opaque values (only compared for equality, Nat here);
countryCodes is the parsed country filter list, [] meaning ALL
(clusters.py line 664). -/
structure ClusterDoc where
  _id : Nat
  userId : Nat
  domain : Nat
  clusterName : Nat
  deviceFilter : Nat
  countryCodes : List Nat
  deleted : Bool
  deletedAt : Option Nat
  createdAt : Nat
  updatedAt : Nat
deriving DecidableEq, Repr

/-- A document of the links collection. -/
structure LinkDoc where
  _id : Nat
  clusterId : Nat
  url : Nat
  deleted : Bool
  deletedAt : Option Nat
  createdAt : Nat
  updatedAt : Nat
  status : LinkStatus
deriving DecidableEq, Repr

/-- The three collections the claims are about. -/
structure DBState where
  clusters : List ClusterDoc
  links : List LinkDoc
  linkPerf : List PerfDoc
deriving DecidableEq, Repr

/-- The cluster document inserted by new_cluster_json_action
(clusters.py lines 241-251). -/
def mkClusterDoc (cid uid dom name device : Nat) (countryCodes : List Nat)
    (now : Nat) : ClusterDoc :=
  { _id := cid, userId := uid, domain := dom, clusterName := name,
    deviceFilter := device, countryCodes := countryCodes,
    deleted := false, deletedAt := none, createdAt := now, updatedAt := now }

/-- The link document inserted by add_links_json_action
(clusters.py lines 618-626). -/
def mkLinkDoc (lid cid url now : Nat) : LinkDoc :=
  { _id := lid, clusterId := cid, url := url, deleted := false, deletedAt := none,
    createdAt := now, updatedAt := now, status := .processing }

/-- Marks carried by the soft-delete updates. -/
def markLink (now : Nat) (l : LinkDoc) : LinkDoc :=
  { l with deleted := true, deletedAt := some now }

/-- Soft-delete mark on a performance document. -/
def markPerf (now : Nat) (p : PerfDoc) : PerfDoc :=
  { p with deleted := some true, deletedAt := some now }

/-- Soft-delete mark on a cluster document. -/
def markCluster (now : Nat) (c : ClusterDoc) : ClusterDoc :=
  { c with deleted := true, deletedAt := some now }

/-- Shared body of delete_cluster and trash_cluster after the cluster was
found (clusters.py lines 459-489 and 1282-1299): update_one on the cluster
by _id, update_many on its non-deleted links, then update_many on the
non-deleted performance rows of all link ids of the cluster (the id list is
read back after the link update; clusterId is never modified, and distinct
plus in-membership is plain membership). -/
def softDeleteLinks (links : List LinkDoc) (cid now : Nat) : List LinkDoc :=
  links.map (fun l => if l.clusterId == cid && !l.deleted then markLink now l else l)

/-- The link id list fed to the in-membership filter of the performance
update: all links of the cluster, deleted or not (clusters.py line 485). -/
def clusterAllLinkIds (links : List LinkDoc) (cid : Nat) : List Nat :=
  (links.filter (fun l => l.clusterId == cid)).map LinkDoc._id

def softDeletePerf (perf : List PerfDoc) (ids : List Nat) (now : Nat) :
    List PerfDoc :=
  perf.map (fun p =>
    if ids.contains p.linkId && !(p.deleted == some true) then markPerf now p
    else p)

def cascadeSoftDelete (db : DBState) (cid : Nat) (now : Nat) : DBState :=
  { clusters := updateFirst (fun c => c._id == cid) (markCluster now) db.clusters
    links := softDeleteLinks db.links cid now
    linkPerf := softDeletePerf db.linkPerf
      (clusterAllLinkIds (softDeleteLinks db.links cid now) cid) now }

/-- delete_cluster (clusters.py lines 432-503): guarded by find_one on
_id with deleted ne true; on miss nothing is written. -/
def delete_cluster (db : DBState) (cid : Nat) (now : Nat) : DBState :=
  if db.clusters.any (fun c => c._id == cid && !c.deleted) then
    cascadeSoftDelete db cid now
  else db

/-- trash_cluster (clusters.py lines 1251-1311): same cascade, but the
find_one also matches on userId. -/
def trash_cluster (db : DBState) (cid uid : Nat) (now : Nat) : DBState :=
  if db.clusters.any (fun c => c._id == cid && c.userId == uid && !c.deleted) then
    cascadeSoftDelete db cid now
  else db

/-- restore_cluster (clusters.py lines 1313-1365): guarded by find_one on
_id, userId and deleted equal true; restores the cluster, every deleted
link of the cluster, and every deleted performance row of its links. -/
def restoreLinks (links : List LinkDoc) (cid : Nat) : List LinkDoc :=
  links.map (fun l =>
    if l.clusterId == cid && l.deleted then
      { l with deleted := false, deletedAt := none } else l)

def restorePerf (perf : List PerfDoc) (ids : List Nat) : List PerfDoc :=
  perf.map (fun p =>
    if ids.contains p.linkId && p.deleted == some true then
      { p with deleted := some false, deletedAt := none } else p)

def restore_cluster (db : DBState) (cid uid : Nat) : DBState :=
  if db.clusters.any (fun c => c._id == cid && c.userId == uid && c.deleted) then
    { clusters := updateFirst (fun c => c._id == cid)
        (fun c => { c with deleted := false, deletedAt := none }) db.clusters
      links := restoreLinks db.links cid
      linkPerf := restorePerf db.linkPerf
        (clusterAllLinkIds (restoreLinks db.links cid) cid) }
  else db

/-- delete_link (clusters.py lines 965-1020): guarded by find_one on _id
with deleted ne true; marks the link (update_one by _id) and its non-deleted
performance rows. -/
def delete_link (db : DBState) (lid : Nat) (now : Nat) : DBState :=
  if db.links.any (fun l => l._id == lid && !l.deleted) then
    { db with
      links := updateFirst (fun l => l._id == lid) (markLink now) db.links
      linkPerf := db.linkPerf.map (fun p =>
        if p.linkId == lid && !(p.deleted == some true) then markPerf now p else p) }
  else db

/-- trash_link (clusters.py lines 1413-1477): like delete_link, but the
cluster of the link must belong to the requesting user, else nothing is
written (403 path). -/
def trash_link (db : DBState) (lid uid : Nat) (now : Nat) : DBState :=
  match db.links.find? (fun l => l._id == lid && !l.deleted) with
  | none => db
  | some l =>
      if db.clusters.any (fun c => c._id == l.clusterId && c.userId == uid) then
        { db with
          links := updateFirst (fun l2 => l2._id == lid) (markLink now) db.links
          linkPerf := db.linkPerf.map (fun p =>
            if p.linkId == lid && !(p.deleted == some true) then markPerf now p
            else p) }
      else db

/-- Environment of one run of the background fetch: which steps succeed and
what the GSC query returns per country (none = the query raises; the
exception is caught inside query_for_country and [] is returned, lines
719-728).  The argument none to queryRows is the no-country-filter query. -/
structure FetchEnv where
  sessionAvailable : Bool
  credentialsPresent : Bool
  credentialsComplete : Bool
  initSucceeds : Bool
  queryRows : Option Nat → Option (List GSCRow)
  writeSucceeds : Bool

/-- Observable outcome of one run of the background fetch: the final link
status, the link_performance collection, and how many GSC queries were
issued. -/
structure FetchOutcome where
  status : LinkStatus
  perf : List PerfDoc
  queryCalls : Nat

/-- What query_for_country returns to the caller: rows on success, [] when
the query raised (clusters.py lines 719-728). -/
def queryResultRows (env : FetchEnv) (c : Option Nat) : List GSCRow :=
  (env.queryRows c).getD []

/-- The all_rows list of one run (clusters.py lines 730-737): the single
no-country query when the filter is ALL, else the per-country results
concatenated in filter order (empty results skipped by the if, which does
not change the concatenation). -/
def fetchAllRows (env : FetchEnv) (cluster : ClusterDoc) : List GSCRow :=
  if cluster.countryCodes.isEmpty then queryResultRows env none
  else cluster.countryCodes.foldl (fun acc c =>
    let rows := queryResultRows env (some c)
    if rows.isEmpty then acc else acc ++ rows) []

/-- How many GSC queries one run issues once it reaches the query stage:
exactly one per country code, or one when the filter is ALL; never a
retry. -/
def fetchQueryCalls (cluster : ClusterDoc) : Nat :=
  if cluster.countryCodes.isEmpty then 1 else cluster.countryCodes.length

/-- fetch_3months_gsc_data_for_link (clusters.py lines 641-795), modelled by
its effect on the link status and the link_performance collection.  A
failing bulk_write is modelled as leaving the collection unchanged; the
claims only concern the status flag on that path.  Note the two paths that
do not touch the status: missing session (early return, lines 648-651) and
an empty bulk_ops list (lines 778-795 are skipped entirely). -/
def runFetch (env : FetchEnv) (link : LinkDoc) (cluster : ClusterDoc)
    (coll : List PerfDoc) (now : Nat) : FetchOutcome :=
  if !env.sessionAvailable then
    { status := link.status, perf := coll, queryCalls := 0 }
  else if !env.credentialsPresent then
    { status := .error, perf := coll, queryCalls := 0 }
  else if !env.credentialsComplete then
    { status := .error, perf := coll, queryCalls := 0 }
  else if !env.initSucceeds then
    { status := .error, perf := coll, queryCalls := 0 }
  else
    let aggregated := aggregateRows (fetchAllRows env cluster)
    if aggregated.isEmpty then
      { status := link.status, perf := coll, queryCalls := fetchQueryCalls cluster }
    else if env.writeSucceeds then
      { status := .complete, perf := writeAggregated coll link._id aggregated now,
        queryCalls := fetchQueryCalls cluster }
    else
      { status := .error, perf := coll, queryCalls := fetchQueryCalls cluster }

/-- One displayed row of the cluster performance page. -/
structure ResultRow where
  date : Nat
  clicks : ℚ
  impressions : ℚ
  ctr : ℚ
  position : ℚ
deriving DecidableEq, Repr

/-- The fields of a performance document the cluster page aggregates
(clusters.py lines 1195-1197; missing keys default to 0). -/
def perfToRow (p : PerfDoc) : GSCRow :=
  { date := p.date, clicks := p.clicks, impressions := p.impressions,
    position := p.position }

/-- Building one result row from a date and its accumulator
(clusters.py lines 1209-1220): same guarded divisions as the fetch. -/
def mkResultRow (d : Nat) (a : Acc) : ResultRow :=
  { date := d
    clicks := a.clicks
    impressions := a.impressions
    ctr := if a.impressions ≠ 0 then a.clicks / a.impressions else 0
    position := if a.impressions ≠ 0 then a.weighted_position_sum / a.impressions else 0 }

/-- The link ids the cluster page aggregates over: non-deleted links of the
cluster (clusters.py lines 1157-1160; deleted equal false, exact match). -/
def clusterLinkIds (db : DBState) (cid : Nat) : List Nat :=
  (db.links.filter (fun l => l.clusterId == cid && l.deleted == false)).map LinkDoc._id

/-- The performance documents the cluster page fetches (clusters.py lines
1169-1177): linkId among the cluster link ids, date in range, deleted ne
true. -/
def clusterPerfDocs (db : DBState) (cid : Nat) (startD endD : Nat) : List PerfDoc :=
  db.linkPerf.filter (fun p =>
    (clusterLinkIds db cid).contains p.linkId &&
    decide (startD ≤ p.date) && decide (p.date ≤ endD) &&
    !(p.deleted == some true))

/-- Clicks of the performance documents of a given date (what the page sums
across links). -/
def perfClicksAt (docs : List PerfDoc) (d : Nat) : ℚ :=
  ((docs.filter (fun p => p.date == d)).map PerfDoc.clicks).sum

/-- Impressions of the performance documents of a given date. -/
def perfImpressionsAt (docs : List PerfDoc) (d : Nat) : ℚ :=
  ((docs.filter (fun p => p.date == d)).map PerfDoc.impressions).sum

/-- Sum of position times impressions of the performance documents of a
given date. -/
def perfWeightedPositionAt (docs : List PerfDoc) (d : Nat) : ℚ :=
  ((docs.filter (fun p => p.date == d)).map
    (fun p => p.position * p.impressions)).sum

/-- The rows the cluster performance page displays (clusters.py lines
1184-1222): the per-date aggregation loop (same shape as the fetch loop),
the result-row construction, and the descending sort by date.  Python
list.sort is a stable sort; the dates are pairwise distinct (dict keys), so
any sort realising the order gives the same list; mergeSort is used. -/
def clusterResultRows (db : DBState) (cid : Nat) (startD endD : Nat) :
    List ResultRow :=
  ((aggregateRows ((clusterPerfDocs db cid startD endD).map perfToRow)).map
    (fun da => mkResultRow da.1 da.2)).mergeSort
    (fun a b => decide (b.date ≤ a.date))

/-- Positional frame statement for a soft-delete update: the collection
keeps its length (nothing is removed), and the document at every position is
either untouched (filter does not match) or exactly the marked version of
the old document (so every field the mark does not mention is unchanged). -/
def FramePreserved (before after : List α) (A : α → Bool) (mark : α → α) : Prop :=
  after.length = before.length ∧
  ∀ (i : Nat) (x : α), before[i]? = some x →
    after[i]? = some (if A x then mark x else x)

theorem Acc.zero_add (a : Acc) : Acc.zero.add a = a := by
  simp [Acc.zero, Acc.add]

theorem Acc.add_zero (a : Acc) : a.add Acc.zero = a := by
  simp [Acc.zero, Acc.add]

theorem Acc.addRow_eq (a : Acc) (r : GSCRow) : a.addRow r = a.add r.acc := by
  simp [Acc.addRow, Acc.add, GSCRow.acc]

theorem Acc.add_assoc (a b c : Acc) : (a.add b).add c = a.add (b.add c) := by
  simp [Acc.add]; refine ⟨by ring, by ring, by ring⟩

theorem accTotals_nil (d : Nat) : accTotals [] d = Acc.zero := by
  simp [accTotals, totalClicks, totalImpressions, totalWeightedPosition, rowsAt, Acc.zero]

theorem accTotals_cons_self (r : GSCRow) (rs : List GSCRow) (d : Nat) (h : r.date = d) :
    accTotals (r :: rs) d = r.acc.add (accTotals rs d) := by
  simp [accTotals, totalClicks, totalImpressions, totalWeightedPosition, rowsAt,
    List.filter_cons, h, GSCRow.acc, Acc.add]

theorem accTotals_cons_other (r : GSCRow) (rs : List GSCRow) (d : Nat) (h : ¬ r.date = d) :
    accTotals (r :: rs) d = accTotals rs d := by
  simp [accTotals, totalClicks, totalImpressions, totalWeightedPosition, rowsAt,
    List.filter_cons, h]

theorem lookupAcc_updateAssoc (m : List (Nat × Acc)) (d dq : Nat) (f : Acc → Acc)
    (init : Acc) :
    lookupAcc (updateAssoc m d f init) dq =
      if dq = d then some (f ((lookupAcc m d).getD init)) else lookupAcc m dq := by
  induction m with
  | nil =>
      by_cases h : dq = d
      · subst h; simp [updateAssoc, lookupAcc]
      · simp [updateAssoc, lookupAcc, h, Ne.symm h]
  | cons kv rest ih =>
      obtain ⟨k, v⟩ := kv
      by_cases hk : k = d
      · subst hk
        by_cases hq : dq = k
        · subst hq; simp [updateAssoc, lookupAcc]
        · simp [updateAssoc, lookupAcc, hq, Ne.symm hq]
      · by_cases hq : dq = k
        · subst hq
          simp [updateAssoc, lookupAcc, hk]
        · simp [updateAssoc, lookupAcc, hk, hq, Ne.symm hq, ih]

/-- Fold invariant of the aggregation loop: after folding the remaining rows,
the entry of a date holds the prior entry plus the componentwise totals of
the remaining rows with that date. -/
theorem lookupAcc_foldl_aggStep (rows : List GSCRow) (m : List (Nat × Acc)) (d : Nat) :
    lookupAcc (rows.foldl aggStep m) d =
      match lookupAcc m d with
      | some a => some (a.add (accTotals rows d))
      | none =>
          if rows.any (fun r => r.date == d) then some (accTotals rows d) else none := by
  induction rows generalizing m with
  | nil =>
      cases h : lookupAcc m d <;> simp [accTotals_nil, Acc.add_zero, h]
  | cons r rs ih =>
      have hstep : lookupAcc (aggStep m r) d =
          if d = r.date then some (((lookupAcc m r.date).getD Acc.zero).addRow r)
          else lookupAcc m d := lookupAcc_updateAssoc m r.date d _ Acc.zero
      by_cases hd : r.date = d
      · subst hd
        rw [List.foldl_cons, ih, hstep]
        cases h : lookupAcc m r.date with
        | some a =>
            simp [h, accTotals_cons_self r rs r.date rfl, Acc.addRow_eq, Acc.add_assoc]
        | none =>
            simp [h, accTotals_cons_self r rs r.date rfl, Acc.addRow_eq, Acc.zero_add]
      · rw [List.foldl_cons, ih, hstep]
        have hne : ¬ d = r.date := fun h => hd h.symm
        cases h : lookupAcc m d with
        | some a => simp [hne, h, accTotals_cons_other r rs d hd]
        | none =>
            simp [hne, h, accTotals_cons_other r rs d hd, hd]

/-- The aggregated dict of fetch_3months_gsc_data_for_link maps a date to the
componentwise totals of the rows with that date, and has an entry exactly for
the dates that occur among the rows. -/
theorem lookupAcc_aggregateRows (rows : List GSCRow) (d : Nat) :
    lookupAcc (aggregateRows rows) d =
      if rows.any (fun r => r.date == d) then some (accTotals rows d) else none := by
  have h := lookupAcc_foldl_aggStep rows [] d
  simpa [aggregateRows, lookupAcc] using h

/-- C1: the background aggregation routine merges the fetched GSC rows into
one record per date whose clicks and impressions are the sums over the rows
of that date, whose ctr is total clicks over total impressions, and whose
position is the impression-weighted average of the positions. -/
theorem C1_merge_per_date (rows : List GSCRow) (d : Nat) (a : Acc)
    (hl : lookupAcc (aggregateRows rows) d = some a)
    (hi : totalImpressions rows d ≠ 0) :
    finalize a =
      { clicks := totalClicks rows d
        impressions := totalImpressions rows d
        ctr := totalClicks rows d / totalImpressions rows d
        position := totalWeightedPosition rows d / totalImpressions rows d } := by
  rw [lookupAcc_aggregateRows] at hl
  have ha : a = accTotals rows d := by
    cases h : rows.any (fun r => r.date == d) with
    | false => simp [h] at hl
    | true => simp [h] at hl; exact hl.symm
  subst ha
  simp [finalize, accTotals, hi]

/-- Witness for C1 at a concrete row set: two rows on date 1 (clicks 2 and 3,
impressions 10 and 30, positions 4 and 8) and one row on date 2. -/
theorem C1_merge_per_date_witness :
    lookupAcc (aggregateRows
        [⟨1, 2, 10, 4⟩, ⟨1, 3, 30, 8⟩, ⟨2, 1, 5, 2⟩]) 1 = some ⟨5, 40, 280⟩ ∧
    totalImpressions [⟨1, 2, 10, 4⟩, ⟨1, 3, 30, 8⟩, ⟨2, 1, 5, 2⟩] 1 ≠ 0 ∧
    finalize ⟨5, 40, 280⟩ =
      { clicks := totalClicks [⟨1, 2, 10, 4⟩, ⟨1, 3, 30, 8⟩, ⟨2, 1, 5, 2⟩] 1
        impressions := totalImpressions [⟨1, 2, 10, 4⟩, ⟨1, 3, 30, 8⟩, ⟨2, 1, 5, 2⟩] 1
        ctr := totalClicks [⟨1, 2, 10, 4⟩, ⟨1, 3, 30, 8⟩, ⟨2, 1, 5, 2⟩] 1 /
          totalImpressions [⟨1, 2, 10, 4⟩, ⟨1, 3, 30, 8⟩, ⟨2, 1, 5, 2⟩] 1
        position := totalWeightedPosition [⟨1, 2, 10, 4⟩, ⟨1, 3, 30, 8⟩, ⟨2, 1, 5, 2⟩] 1 /
          totalImpressions [⟨1, 2, 10, 4⟩, ⟨1, 3, 30, 8⟩, ⟨2, 1, 5, 2⟩] 1 } := by
  have h1 : lookupAcc (aggregateRows
      [⟨1, 2, 10, 4⟩, ⟨1, 3, 30, 8⟩, ⟨2, 1, 5, 2⟩]) 1 = some ⟨5, 40, 280⟩ := by
    simp [aggregateRows, aggStep, updateAssoc, lookupAcc, Acc.addRow, Acc.zero]
    norm_num
  have h2 : totalImpressions [⟨1, 2, 10, 4⟩, ⟨1, 3, 30, 8⟩, ⟨2, 1, 5, 2⟩] 1 ≠ 0 := by
    norm_num [totalImpressions, rowsAt]
  exact ⟨h1, h2, C1_merge_per_date _ 1 _ h1 h2⟩

/-- C9: both aggregation displays are division-safe: whenever the
accumulated impressions of a date are 0, the computed ctr and position are 0
(the guarded conditionals of the fetch and of the cluster page), not a
division by zero. -/
theorem C9_division_safe (a : Acc) (d : Nat) (h : a.impressions = 0) :
    (finalize a).ctr = 0 ∧ (finalize a).position = 0 ∧
    (mkResultRow d a).ctr = 0 ∧ (mkResultRow d a).position = 0 := by
  simp [finalize, mkResultRow, h]

/-- Witness for C9 at a concrete zero-impression accumulator. -/
theorem C9_division_safe_witness :
    (⟨3, 0, 7⟩ : Acc).impressions = 0 ∧
    (finalize ⟨3, 0, 7⟩).ctr = 0 ∧ (finalize ⟨3, 0, 7⟩).position = 0 ∧
    (mkResultRow 5 ⟨3, 0, 7⟩).ctr = 0 ∧ (mkResultRow 5 ⟨3, 0, 7⟩).position = 0 :=
  ⟨rfl, (C9_division_safe ⟨3, 0, 7⟩ 5 rfl).1, (C9_division_safe ⟨3, 0, 7⟩ 5 rfl).2.1,
    (C9_division_safe ⟨3, 0, 7⟩ 5 rfl).2.2.1, (C9_division_safe ⟨3, 0, 7⟩ 5 rfl).2.2.2⟩

theorem applySet_matchesKey (lid d now : Nat) (m : PerfMetrics) (p : PerfDoc) :
    matchesKey lid d (applySet now m p) = matchesKey lid d p := by
  simp [matchesKey, applySet]

theorem applySet_applySet (now : Nat) (m : PerfMetrics) (p : PerfDoc) :
    applySet now m (applySet now m p) = applySet now m p := by
  simp [applySet]

theorem matchesKey_newPerfDoc (lid d now : Nat) (m : PerfMetrics) :
    matchesKey lid d (newPerfDoc lid d m now) = true := by
  simp [matchesKey, newPerfDoc]

theorem find?_updateFirst_self (p : α → Bool) (f : α → α) (l : List α) (doc : α)
    (hf : ∀ x, p x = true → p (f x) = true) (h : l.find? p = some doc) :
    (updateFirst p f l).find? p = some (f doc) := by
  induction l with
  | nil => simp [List.find?] at h
  | cons x xs ih =>
      cases hx : p x with
      | true =>
          rw [List.find?_cons_of_pos xs hx] at h
          injection h with h; subst h
          rw [updateFirst, if_pos hx, List.find?_cons_of_pos xs (hf x hx)]
      | false =>
          rw [List.find?_cons_of_neg xs (by simp [hx])] at h
          rw [updateFirst, if_neg (by simp [hx]),
            List.find?_cons_of_neg _ (by simp [hx])]
          exact ih h

theorem find?_updateFirst_other (p q : α → Bool) (f : α → α) (l : List α)
    (h1 : ∀ x, q x = true → p x = false) (h2 : ∀ x, q x = true → p (f x) = false) :
    (updateFirst q f l).find? p = l.find? p := by
  induction l with
  | nil => simp [updateFirst]
  | cons x xs ih =>
      cases hx : q x with
      | true =>
          rw [updateFirst, if_pos hx, List.find?_cons_of_neg xs (by simp [h2 x hx]),
            List.find?_cons_of_neg xs (by simp [h1 x hx])]
      | false =>
          rw [updateFirst, if_neg (by simp [hx])]
          cases hp : p x with
          | true =>
              rw [List.find?_cons_of_pos _ hp, List.find?_cons_of_pos xs hp]
          | false =>
              rw [List.find?_cons_of_neg _ (by simp [hp]),
                List.find?_cons_of_neg xs (by simp [hp])]
              exact ih

theorem updateFirst_noop (p : α → Bool) (f : α → α) (l : List α) (doc : α)
    (h : l.find? p = some doc) (hfix : f doc = doc) : updateFirst p f l = l := by
  induction l with
  | nil => simp [List.find?] at h
  | cons x xs ih =>
      cases hx : p x with
      | true =>
          rw [List.find?_cons_of_pos xs hx] at h
          injection h with h; subst h
          rw [updateFirst, if_pos hx, hfix]
      | false =>
          rw [List.find?_cons_of_neg xs (by simp [hx])] at h
          rw [updateFirst, if_neg (by simp [hx]), ih h]

theorem any_of_find?_eq_some {p : α → Bool} {l : List α} {doc : α}
    (h : l.find? p = some doc) : l.any p = true :=
  List.any_eq_true.mpr ⟨doc, List.mem_of_find?_eq_some h, List.find?_some h⟩

theorem upsertOne_find?_self_some (coll : List PerfDoc) (lid d now : Nat)
    (m : PerfMetrics) (doc : PerfDoc)
    (h : coll.find? (matchesKey lid d) = some doc) :
    (upsertOne coll lid d m now).find? (matchesKey lid d) =
      some (applySet now m doc) := by
  rw [upsertOne, if_pos (any_of_find?_eq_some h)]
  exact find?_updateFirst_self _ _ _ _
    (fun x hx => by rw [applySet_matchesKey]; exact hx) h

theorem upsertOne_find?_self_none (coll : List PerfDoc) (lid d now : Nat)
    (m : PerfMetrics) (h : coll.find? (matchesKey lid d) = none) :
    upsertOne coll lid d m now = coll ++ [newPerfDoc lid d m now] := by
  rw [upsertOne, if_neg]
  simp only [Bool.not_eq_true, List.any_eq_false]
  intro x hx
  exact Bool.not_eq_true _ ▸ List.find?_eq_none.mp h x hx

theorem upsertOne_find?_other (coll : List PerfDoc) (lid d dq now : Nat)
    (m : PerfMetrics) (hne : ¬ dq = d) :
    (upsertOne coll lid dq m now).find? (matchesKey lid d) =
      coll.find? (matchesKey lid d) := by
  have hq : ∀ x, matchesKey lid dq x = true → matchesKey lid d x = false := by
    intro x hx
    simp only [matchesKey, Bool.and_eq_true, beq_iff_eq] at hx
    simp only [matchesKey, Bool.and_eq_false_iff, beq_eq_false_iff_ne, ne_eq]
    right
    rw [hx.2]
    exact hne
  rw [upsertOne]
  cases hany : coll.any (matchesKey lid dq) with
  | true =>
      rw [if_pos rfl]
      exact find?_updateFirst_other _ _ _ _ hq
        (fun x hx => by rw [applySet_matchesKey]; exact hq x hx)
  | false =>
      rw [if_neg (by simp), List.find?_append]
      have hnone : List.find? (matchesKey lid d) [newPerfDoc lid dq m now] = none := by
        have := hq (newPerfDoc lid dq m now) (matchesKey_newPerfDoc lid dq now m)
        simp [List.find?, this]
      rw [hnone, Option.or_none]

theorem upsertOne_noop (coll : List PerfDoc) (lid d now : Nat) (m : PerfMetrics)
    (doc : PerfDoc) (h : coll.find? (matchesKey lid d) = some doc)
    (hfix : applySet now m doc = doc) : upsertOne coll lid d m now = coll := by
  rw [upsertOne, if_pos (any_of_find?_eq_some h)]
  exact updateFirst_noop _ _ _ _ h hfix

theorem writeAggregated_nil (coll : List PerfDoc) (lid now : Nat) :
    writeAggregated coll lid [] now = coll := rfl

theorem writeAggregated_cons (coll : List PerfDoc) (lid now : Nat)
    (da : Nat × Acc) (rest : List (Nat × Acc)) :
    writeAggregated coll lid (da :: rest) now =
      writeAggregated (upsertOne coll lid da.1 (finalize da.2) now) lid rest now := rfl

theorem writeAggregated_find?_not_mem (coll : List PerfDoc) (lid now d : Nat)
    (aggs : List (Nat × Acc)) (h : d ∉ aggs.map Prod.fst) :
    (writeAggregated coll lid aggs now).find? (matchesKey lid d) =
      coll.find? (matchesKey lid d) := by
  induction aggs generalizing coll with
  | nil => rfl
  | cons da rest ih =>
      simp only [List.map_cons, List.mem_cons] at h
      push_neg at h
      rw [writeAggregated_cons, ih _ h.2,
        upsertOne_find?_other _ _ _ _ _ _ (fun hh => h.1 hh.symm)]

theorem writeAggregated_find?_mem_some (coll : List PerfDoc) (lid now : Nat)
    (aggs : List (Nat × Acc)) (da : Nat × Acc) (doc : PerfDoc)
    (hnd : (aggs.map Prod.fst).Nodup) (hmem : da ∈ aggs)
    (h : coll.find? (matchesKey lid da.1) = some doc) :
    (writeAggregated coll lid aggs now).find? (matchesKey lid da.1) =
      some (applySet now (finalize da.2) doc) := by
  induction aggs generalizing coll with
  | nil => simp at hmem
  | cons hd rest ih =>
      simp only [List.map_cons, List.nodup_cons] at hnd
      rcases List.mem_cons.mp hmem with heq | hmem2
      · subst heq
        rw [writeAggregated_cons, writeAggregated_find?_not_mem _ _ _ _ _ hnd.1]
        exact upsertOne_find?_self_some _ _ _ _ _ _ h
      · have hne : ¬ hd.1 = da.1 := by
          intro he
          exact hnd.1 (he ▸ List.mem_map.mpr ⟨da, hmem2, rfl⟩)
        rw [writeAggregated_cons]
        refine ih _ hnd.2 hmem2 ?_
        rw [upsertOne_find?_other _ _ _ _ _ _ hne]
        exact h

theorem writeAggregated_find?_mem_none (coll : List PerfDoc) (lid now : Nat)
    (aggs : List (Nat × Acc)) (da : Nat × Acc)
    (hnd : (aggs.map Prod.fst).Nodup) (hmem : da ∈ aggs)
    (h : coll.find? (matchesKey lid da.1) = none) :
    (writeAggregated coll lid aggs now).find? (matchesKey lid da.1) =
      some (newPerfDoc lid da.1 (finalize da.2) now) := by
  induction aggs generalizing coll with
  | nil => simp at hmem
  | cons hd rest ih =>
      simp only [List.map_cons, List.nodup_cons] at hnd
      rcases List.mem_cons.mp hmem with heq | hmem2
      · subst heq
        rw [writeAggregated_cons, writeAggregated_find?_not_mem _ _ _ _ _ hnd.1,
          upsertOne_find?_self_none _ _ _ _ _ h, List.find?_append, h]
        rw [List.find?_cons_of_pos _ (matchesKey_newPerfDoc _ _ _ _)]
        rfl
      · have hne : ¬ hd.1 = da.1 := by
          intro he
          exact hnd.1 (he ▸ List.mem_map.mpr ⟨da, hmem2, rfl⟩)
        rw [writeAggregated_cons]
        refine ih _ hnd.2 hmem2 ?_
        rw [upsertOne_find?_other _ _ _ _ _ _ hne]
        exact h

theorem writeAggregated_noop (coll : List PerfDoc) (lid now : Nat)
    (aggs : List (Nat × Acc))
    (h : ∀ da ∈ aggs, ∃ doc, coll.find? (matchesKey lid da.1) = some doc ∧
      applySet now (finalize da.2) doc = doc) :
    writeAggregated coll lid aggs now = coll := by
  induction aggs with
  | nil => rfl
  | cons da rest ih =>
      obtain ⟨doc, hf, hfix⟩ := h da (List.mem_cons_self da rest)
      rw [writeAggregated_cons, upsertOne_noop _ _ _ _ _ _ hf hfix]
      exact ih (fun da2 h2 => h da2 (List.mem_cons_of_mem _ h2))

theorem keys_updateAssoc_subset (m : List (Nat × Acc)) (d x : Nat) (f : Acc → Acc)
    (init : Acc) (h : x ∈ (updateAssoc m d f init).map Prod.fst) :
    x ∈ m.map Prod.fst ∨ x = d := by
  induction m with
  | nil =>
      simp [updateAssoc] at h
      right; exact h
  | cons kv rest ih =>
      obtain ⟨k, v⟩ := kv
      by_cases hk : k = d
      · rw [updateAssoc, if_pos hk] at h
        simp only [List.map_cons, List.mem_cons] at h ⊢
        rcases h with h | h
        · exact Or.inl (Or.inl h)
        · exact Or.inl (Or.inr h)
      · rw [updateAssoc, if_neg hk] at h
        simp only [List.map_cons, List.mem_cons] at h ⊢
        rcases h with h | h
        · exact Or.inl (Or.inl h)
        · rcases ih h with h2 | h2
          · exact Or.inl (Or.inr h2)
          · exact Or.inr h2

theorem keys_nodup_updateAssoc (m : List (Nat × Acc)) (d : Nat) (f : Acc → Acc)
    (init : Acc) (h : (m.map Prod.fst).Nodup) :
    ((updateAssoc m d f init).map Prod.fst).Nodup := by
  induction m with
  | nil => simp [updateAssoc]
  | cons kv rest ih =>
      obtain ⟨k, v⟩ := kv
      simp only [List.map_cons, List.nodup_cons] at h
      by_cases hk : k = d
      · rw [updateAssoc, if_pos hk]
        simp only [List.map_cons, List.nodup_cons]
        exact ⟨h.1, h.2⟩
      · rw [updateAssoc, if_neg hk]
        simp only [List.map_cons, List.nodup_cons]
        refine ⟨?_, ih h.2⟩
        intro hmem
        rcases keys_updateAssoc_subset rest d k f init hmem with hin | heq
        · exact h.1 hin
        · exact hk heq

theorem aggregateRows_keys_nodup (rows : List GSCRow) :
    ((aggregateRows rows).map Prod.fst).Nodup := by
  suffices h : ∀ m, (List.map Prod.fst m).Nodup →
      ((rows.foldl aggStep m).map Prod.fst).Nodup by
    exact h [] (by simp)
  induction rows with
  | nil => exact fun m hm => hm
  | cons r rs ih =>
      intro m hm
      rw [List.foldl_cons]
      exact ih _ (keys_nodup_updateAssoc m r.date _ Acc.zero hm)

/-- C2: the aggregation writes one upsert per aggregated date (the dict keys
are pairwise distinct), each keyed by (linkId, date), and the whole batch is
idempotent: applying it a second time to the collection it produced changes
nothing. -/
theorem C2_idempotent_upsert_batch (coll : List PerfDoc) (lid now : Nat)
    (rows : List GSCRow) :
    ((aggregateRows rows).map Prod.fst).Nodup ∧
    writeAggregated (writeAggregated coll lid (aggregateRows rows) now) lid
        (aggregateRows rows) now =
      writeAggregated coll lid (aggregateRows rows) now := by
  refine ⟨aggregateRows_keys_nodup rows, ?_⟩
  apply writeAggregated_noop
  intro da hmem
  cases h : coll.find? (matchesKey lid da.1) with
  | none =>
      refine ⟨newPerfDoc lid da.1 (finalize da.2) now, ?_, ?_⟩
      · exact writeAggregated_find?_mem_none _ _ _ _ _
          (aggregateRows_keys_nodup rows) hmem h
      · simp [applySet, newPerfDoc]
  | some doc =>
      exact ⟨applySet now (finalize da.2) doc,
        writeAggregated_find?_mem_some _ _ _ _ _ _
          (aggregateRows_keys_nodup rows) hmem h,
        applySet_applySet _ _ _⟩

theorem updateFirst_getElem? (p : α → Bool) (f : α → α) (l : List α) (i : Nat)
    (x : α) (h : l[i]? = some x) :
    (updateFirst p f l)[i]? = some x ∨ (updateFirst p f l)[i]? = some (f x) := by
  induction l generalizing i with
  | nil => simp at h
  | cons y ys ih =>
      cases i with
      | zero =>
          simp only [List.getElem?_cons_zero, Option.some.injEq] at h
          subst h
          by_cases hy : p y
          · right; simp [updateFirst, hy]
          · left; simp [updateFirst, hy]
      | succ n =>
          simp only [List.getElem?_cons_succ] at h
          by_cases hy : p y
          · left
            rw [updateFirst, if_pos hy, List.getElem?_cons_succ]
            exact h
          · rw [updateFirst, if_neg hy, List.getElem?_cons_succ]
            exact ih n h

theorem upsertOne_getElem? (coll : List PerfDoc) (lid d now : Nat)
    (m : PerfMetrics) (i : Nat) (x : PerfDoc) (h : coll[i]? = some x) :
    (upsertOne coll lid d m now)[i]? = some x ∨
    (upsertOne coll lid d m now)[i]? = some (applySet now m x) := by
  rw [upsertOne]
  cases hany : coll.any (matchesKey lid d) with
  | true =>
      rw [if_pos rfl]
      exact updateFirst_getElem? _ _ _ _ _ h
  | false =>
      rw [if_neg (by simp)]
      left
      rw [List.getElem?_append, if_pos (List.getElem?_eq_some.mp h).1]
      exact h

theorem writeAggregated_getElem? (coll : List PerfDoc) (lid now : Nat)
    (aggs : List (Nat × Acc)) (i : Nat) (p : PerfDoc) (h : coll[i]? = some p) :
    ∃ q, (writeAggregated coll lid aggs now)[i]? = some q ∧
      q.deleted = p.deleted ∧ q.deletedAt = p.deletedAt ∧
      q.linkId = p.linkId ∧ q.date = p.date ∧ q.createdAt = p.createdAt := by
  induction aggs generalizing coll p with
  | nil => exact ⟨p, h, rfl, rfl, rfl, rfl, rfl⟩
  | cons da rest ih =>
      rw [writeAggregated_cons]
      rcases upsertOne_getElem? coll lid da.1 now (finalize da.2) i p h with h1 | h1
      · exact ih _ _ h1
      · obtain ⟨q, hq, h2, h3, h4, h5, h6⟩ := ih _ _ h1
        exact ⟨q, hq, h2, h3, h4, h5, h6⟩

/-- C8: the aggregation upsert never changes soft-delete state.  Its filter
matches on (linkId, date) only; when a document with that key exists, its
row is overwritten in place with the new metrics and updatedAt, every other
field (deleted, deletedAt, createdAt included) kept; and positionally every
pre-existing document of the collection keeps its deleted, deletedAt,
linkId, date and createdAt across the whole batch, so a soft-deleted row
stays soft-deleted after a refresh. -/
theorem C8_upsert_preserves_soft_delete (coll : List PerfDoc) (lid now : Nat)
    (rows : List GSCRow) (da : Nat × Acc) (doc : PerfDoc)
    (hmem : da ∈ aggregateRows rows)
    (hfind : coll.find? (matchesKey lid da.1) = some doc) :
    ((writeAggregated coll lid (aggregateRows rows) now).find?
        (matchesKey lid da.1) =
      some { doc with clicks := (finalize da.2).clicks
                      impressions := (finalize da.2).impressions
                      ctr := (finalize da.2).ctr
                      position := (finalize da.2).position
                      updatedAt := now }) ∧
    (applySet now (finalize da.2) doc).deleted = doc.deleted ∧
    (applySet now (finalize da.2) doc).deletedAt = doc.deletedAt ∧
    (∀ (i : Nat) (p : PerfDoc), coll[i]? = some p →
      ∃ q, (writeAggregated coll lid (aggregateRows rows) now)[i]? = some q ∧
        q.deleted = p.deleted ∧ q.deletedAt = p.deletedAt ∧
        q.linkId = p.linkId ∧ q.date = p.date ∧ q.createdAt = p.createdAt) := by
  refine ⟨?_, rfl, rfl, fun i p h => writeAggregated_getElem? _ _ _ _ _ _ h⟩
  exact writeAggregated_find?_mem_some _ _ _ _ _ _
    (aggregateRows_keys_nodup rows) hmem hfind

/-- Witness for C8: one fetched row for date 1, a collection holding one
soft-deleted performance document with key (7, 1); the batch overwrites its
metrics and keeps deleted = some true. -/
theorem C8_upsert_preserves_soft_delete_witness :
    ((1 : Nat), (⟨2, 10, 40⟩ : Acc)) ∈ aggregateRows [⟨1, 2, 10, 4⟩] ∧
    ([⟨7, 1, 0, 0, 0, 0, some true, some 3, 2, 2⟩] : List PerfDoc).find?
        (matchesKey 7 1) = some ⟨7, 1, 0, 0, 0, 0, some true, some 3, 2, 2⟩ ∧
    (writeAggregated [⟨7, 1, 0, 0, 0, 0, some true, some 3, 2, 2⟩] 7
        (aggregateRows [⟨1, 2, 10, 4⟩]) 9).find? (matchesKey 7 1) =
      some { (⟨7, 1, 0, 0, 0, 0, some true, some 3, 2, 2⟩ : PerfDoc) with
              clicks := (finalize ⟨2, 10, 40⟩).clicks
              impressions := (finalize ⟨2, 10, 40⟩).impressions
              ctr := (finalize ⟨2, 10, 40⟩).ctr
              position := (finalize ⟨2, 10, 40⟩).position
              updatedAt := 9 } ∧
    (applySet 9 (finalize ⟨2, 10, 40⟩)
        ⟨7, 1, 0, 0, 0, 0, some true, some 3, 2, 2⟩).deleted = some true := by
  have hmem : ((1 : Nat), (⟨2, 10, 40⟩ : Acc)) ∈ aggregateRows [⟨1, 2, 10, 4⟩] := by
    simp [aggregateRows, aggStep, updateAssoc, Acc.addRow, Acc.zero]
    norm_num
  have hfind : ([⟨7, 1, 0, 0, 0, 0, some true, some 3, 2, 2⟩] : List PerfDoc).find?
      (matchesKey 7 1) = some ⟨7, 1, 0, 0, 0, 0, some true, some 3, 2, 2⟩ := rfl
  exact ⟨hmem, hfind,
    (C8_upsert_preserves_soft_delete _ 7 9 _ _ _ hmem hfind).1, rfl⟩

theorem map_if_id (p : α → Bool) (f : α → α) (l : List α)
    (h : ∀ x ∈ l, p x = false) :
    l.map (fun x => if p x then f x else x) = l := by
  induction l with
  | nil => rfl
  | cons x xs ih =>
      rw [List.map_cons, if_neg (by simp [h x (List.mem_cons_self x xs)]),
        ih (fun y hy => h y (List.mem_cons_of_mem x hy))]

/-- update_one by a key whose values are pairwise distinct over the
collection is the same as the guarded map: there is at most one match. -/
theorem updateFirst_eq_map (key : α → Nat) (k : Nat) (f : α → α) (l : List α)
    (hnd : (l.map key).Nodup) :
    updateFirst (fun x => key x == k) f l =
      l.map (fun x => if key x == k then f x else x) := by
  induction l with
  | nil => rfl
  | cons x xs ih =>
      simp only [List.map_cons, List.nodup_cons] at hnd
      by_cases hx : key x = k
      · rw [updateFirst, if_pos (by simp [hx]), List.map_cons,
          if_pos (by simp [hx])]
        have hall : ∀ y ∈ xs, (key y == k) = false := by
          intro y hy
          simp only [beq_eq_false_iff_ne, ne_eq]
          intro hk
          exact hnd.1 (by rw [hx, ← hk]; exact List.mem_map.mpr ⟨y, hy, rfl⟩)
        rw [map_if_id _ _ _ hall]
      · rw [updateFirst, if_neg (by simp [hx]), List.map_cons,
          if_neg (by simp [hx]), ih hnd.2]

theorem find?_key_unique (key : α → Nat) (k : Nat) (p : α → Bool) (l : List α)
    (hnd : (l.map key).Nodup) (hpk : ∀ y, p y = true → key y = k)
    (x : α) (hx : x ∈ l) (hpx : p x = true) :
    l.find? p = some x := by
  induction l with
  | nil => simp at hx
  | cons y ys ih =>
      simp only [List.map_cons, List.nodup_cons] at hnd
      cases hy : p y with
      | true =>
          rw [List.find?_cons_of_pos ys hy]
          rcases List.mem_cons.mp hx with heq | hmem
          · rw [heq]
          · exact absurd (by rw [hpk y hy, ← hpk x hpx]
                             exact List.mem_map.mpr ⟨x, hmem, rfl⟩) hnd.1
      | false =>
          rw [List.find?_cons_of_neg ys (by simp [hy])]
          rcases List.mem_cons.mp hx with heq | hmem
          · subst heq; rw [hpx] at hy; exact absurd hy (by simp)
          · exact ih hnd.2 hmem


theorem cascade_clusters_marked (db : DBState) (cid now : Nat)
    (hnd : (db.clusters.map ClusterDoc._id).Nodup) :
    ∀ c ∈ (cascadeSoftDelete db cid now).clusters, c._id = cid →
      c.deleted = true := by
  intro c hc hcid
  simp only [cascadeSoftDelete] at hc
  rw [updateFirst_eq_map ClusterDoc._id cid (markCluster now) db.clusters hnd] at hc
  obtain ⟨c0, hc0, heq⟩ := List.mem_map.mp hc
  split at heq
  · rw [← heq]; rfl
  · rename_i h0
    subst heq
    exact absurd (by simp [hcid]) h0

theorem cascade_links_marked (db : DBState) (cid now : Nat) :
    ∀ l ∈ (cascadeSoftDelete db cid now).links, l.clusterId = cid →
      l.deleted = true := by
  intro l hl hcid
  simp only [cascadeSoftDelete, softDeleteLinks] at hl
  obtain ⟨l0, hl0, heq⟩ := List.mem_map.mp hl
  split at heq
  · rw [← heq]; rfl
  · rename_i h0
    subst heq
    cases hdel : l0.deleted with
    | true => rfl
    | false => exact absurd (by simp [hcid, hdel]) h0

theorem softDeletePerf_marked (perf : List PerfDoc) (ids : List Nat) (now : Nat) :
    ∀ p ∈ softDeletePerf perf ids now, p.linkId ∈ ids → p.deleted = some true := by
  intro p hp hmem
  simp only [softDeletePerf] at hp
  obtain ⟨p0, hp0, heq⟩ := List.mem_map.mp hp
  have hid : p.linkId = p0.linkId := by
    split at heq
    · rw [← heq]; rfl
    · rw [← heq]
  split at heq
  · rw [← heq]; rfl
  · rename_i h0
    subst heq
    by_cases hdel : p0.deleted = some true
    · exact hdel
    · refine absurd ?_ h0
      have hc : ids.contains p0.linkId = true := List.elem_iff.mpr hmem
      simp [hc, hdel, hmem]

theorem cascade_perf_marked (db : DBState) (cid now : Nat) :
    ∀ p ∈ (cascadeSoftDelete db cid now).linkPerf,
      (∃ l ∈ (cascadeSoftDelete db cid now).links,
        l.clusterId = cid ∧ l._id = p.linkId) →
      p.deleted = some true := by
  intro p hp hex
  obtain ⟨l, hl, hlcid, hlid⟩ := hex
  simp only [cascadeSoftDelete] at hp hl
  refine softDeletePerf_marked _ _ _ p hp ?_
  simp only [clusterAllLinkIds]
  rw [← hlid]
  exact List.mem_map.mpr ⟨l, List.mem_filter.mpr ⟨hl, by simp [hlcid]⟩, rfl⟩

/-- C3: soft-deleting a cluster through either the delete endpoint or the
trash endpoint soft-deletes its links and their performance rows: afterwards
the cluster document, every link of the cluster, and every performance row
belonging to one of those links has deleted = true. -/
theorem C3_cascading_soft_delete (db : DBState) (cid uid now : Nat)
    (hnd : (db.clusters.map ClusterDoc._id).Nodup)
    (hex : ∃ c ∈ db.clusters, c._id = cid ∧ c.userId = uid ∧ c.deleted = false) :
    ((∀ c ∈ (delete_cluster db cid now).clusters, c._id = cid → c.deleted = true) ∧
     (∀ l ∈ (delete_cluster db cid now).links, l.clusterId = cid → l.deleted = true) ∧
     (∀ p ∈ (delete_cluster db cid now).linkPerf,
        (∃ l ∈ (delete_cluster db cid now).links,
          l.clusterId = cid ∧ l._id = p.linkId) → p.deleted = some true)) ∧
    ((∀ c ∈ (trash_cluster db cid uid now).clusters, c._id = cid → c.deleted = true) ∧
     (∀ l ∈ (trash_cluster db cid uid now).links, l.clusterId = cid → l.deleted = true) ∧
     (∀ p ∈ (trash_cluster db cid uid now).linkPerf,
        (∃ l ∈ (trash_cluster db cid uid now).links,
          l.clusterId = cid ∧ l._id = p.linkId) → p.deleted = some true)) := by
  obtain ⟨c0, hc0, hcid, huid, hdel⟩ := hex
  have hg1 : delete_cluster db cid now = cascadeSoftDelete db cid now := by
    rw [delete_cluster, if_pos]
    exact List.any_eq_true.mpr ⟨c0, hc0, by simp [hcid, hdel]⟩
  have hg2 : trash_cluster db cid uid now = cascadeSoftDelete db cid now := by
    rw [trash_cluster, if_pos]
    exact List.any_eq_true.mpr ⟨c0, hc0, by simp [hcid, huid, hdel]⟩
  rw [hg1, hg2]
  exact ⟨⟨cascade_clusters_marked db cid now hnd, cascade_links_marked db cid now,
    cascade_perf_marked db cid now⟩,
    ⟨cascade_clusters_marked db cid now hnd, cascade_links_marked db cid now,
    cascade_perf_marked db cid now⟩⟩

/-- Witness for C3: one cluster (id 1, user 7), one link (id 10), one
performance row for that link. -/
theorem C3_cascading_soft_delete_witness :
    (([⟨1, 7, 0, 0, 0, [], false, none, 0, 0⟩] : List ClusterDoc).map
      ClusterDoc._id).Nodup ∧
    (∃ c ∈ ([⟨1, 7, 0, 0, 0, [], false, none, 0, 0⟩] : List ClusterDoc),
      c._id = 1 ∧ c.userId = 7 ∧ c.deleted = false) ∧
    (∀ c ∈ (delete_cluster ⟨[⟨1, 7, 0, 0, 0, [], false, none, 0, 0⟩],
        [⟨10, 1, 0, false, none, 0, 0, .processing⟩],
        [⟨10, 5, 0, 0, 0, 0, none, none, 0, 0⟩]⟩ 1 20).clusters,
      c._id = 1 → c.deleted = true) ∧
    (∀ p ∈ (trash_cluster ⟨[⟨1, 7, 0, 0, 0, [], false, none, 0, 0⟩],
        [⟨10, 1, 0, false, none, 0, 0, .processing⟩],
        [⟨10, 5, 0, 0, 0, 0, none, none, 0, 0⟩]⟩ 1 7 20).linkPerf,
      (∃ l ∈ (trash_cluster ⟨[⟨1, 7, 0, 0, 0, [], false, none, 0, 0⟩],
          [⟨10, 1, 0, false, none, 0, 0, .processing⟩],
          [⟨10, 5, 0, 0, 0, 0, none, none, 0, 0⟩]⟩ 1 7 20).links,
        l.clusterId = 1 ∧ l._id = p.linkId) → p.deleted = some true) := by
  have hnd : (([⟨1, 7, 0, 0, 0, [], false, none, 0, 0⟩] : List ClusterDoc).map
      ClusterDoc._id).Nodup := by simp
  have hex : ∃ c ∈ ([⟨1, 7, 0, 0, 0, [], false, none, 0, 0⟩] : List ClusterDoc),
      c._id = 1 ∧ c.userId = 7 ∧ c.deleted = false :=
    ⟨_, List.mem_singleton_self _, rfl, rfl, rfl⟩
  exact ⟨hnd, hex,
    (C3_cascading_soft_delete ⟨[⟨1, 7, 0, 0, 0, [], false, none, 0, 0⟩],
        [⟨10, 1, 0, false, none, 0, 0, .processing⟩],
        [⟨10, 5, 0, 0, 0, 0, none, none, 0, 0⟩]⟩ 1 7 20 hnd hex).1.1,
    (C3_cascading_soft_delete ⟨[⟨1, 7, 0, 0, 0, [], false, none, 0, 0⟩],
        [⟨10, 1, 0, false, none, 0, 0, .processing⟩],
        [⟨10, 5, 0, 0, 0, 0, none, none, 0, 0⟩]⟩ 1 7 20 hnd hex).2.2.2⟩

theorem FramePreserved_map (A : α → Bool) (mark : α → α) (l : List α) :
    FramePreserved l (l.map fun x => if A x then mark x else x) A mark := by
  refine ⟨List.length_map _ _, ?_⟩
  intro i x h
  rw [List.getElem?_map, h]
  rfl

/-- C6: every soft-delete operation (cluster delete/trash, link delete/trash)
marks instead of removing: each affected document stays at its position with
deleted = true and deletedAt = the operation timestamp, all other fields
unchanged; unaffected documents are untouched. -/
theorem C6_soft_delete_marks_in_place (db : DBState) (cid uid lid now : Nat)
    (hndC : (db.clusters.map ClusterDoc._id).Nodup)
    (hndL : (db.links.map LinkDoc._id).Nodup)
    (hexC : ∃ c ∈ db.clusters, c._id = cid ∧ c.userId = uid ∧ c.deleted = false)
    (hexL : ∃ l ∈ db.links, l._id = lid ∧ l.deleted = false ∧
      ∃ c ∈ db.clusters, c._id = l.clusterId ∧ c.userId = uid) :
    (FramePreserved db.clusters (delete_cluster db cid now).clusters
        (fun c => c._id == cid)
        (fun c => { c with deleted := true, deletedAt := some now }) ∧
      FramePreserved db.links (delete_cluster db cid now).links
        (fun l => l.clusterId == cid && !l.deleted)
        (fun l => { l with deleted := true, deletedAt := some now }) ∧
      FramePreserved db.linkPerf (delete_cluster db cid now).linkPerf
        (fun p =>
          (clusterAllLinkIds (softDeleteLinks db.links cid now) cid).contains
            p.linkId && !(p.deleted == some true))
        (fun p => { p with deleted := some true, deletedAt := some now })) ∧
    (FramePreserved db.clusters (trash_cluster db cid uid now).clusters
        (fun c => c._id == cid)
        (fun c => { c with deleted := true, deletedAt := some now }) ∧
      FramePreserved db.links (trash_cluster db cid uid now).links
        (fun l => l.clusterId == cid && !l.deleted)
        (fun l => { l with deleted := true, deletedAt := some now }) ∧
      FramePreserved db.linkPerf (trash_cluster db cid uid now).linkPerf
        (fun p =>
          (clusterAllLinkIds (softDeleteLinks db.links cid now) cid).contains
            p.linkId && !(p.deleted == some true))
        (fun p => { p with deleted := some true, deletedAt := some now })) ∧
    (FramePreserved db.links (delete_link db lid now).links
        (fun l => l._id == lid)
        (fun l => { l with deleted := true, deletedAt := some now }) ∧
      FramePreserved db.linkPerf (delete_link db lid now).linkPerf
        (fun p => p.linkId == lid && !(p.deleted == some true))
        (fun p => { p with deleted := some true, deletedAt := some now })) ∧
    (FramePreserved db.links (trash_link db lid uid now).links
        (fun l => l._id == lid)
        (fun l => { l with deleted := true, deletedAt := some now }) ∧
      FramePreserved db.linkPerf (trash_link db lid uid now).linkPerf
        (fun p => p.linkId == lid && !(p.deleted == some true))
        (fun p => { p with deleted := some true, deletedAt := some now })) := by
  obtain ⟨c0, hc0, hcid, huid, hcdel⟩ := hexC
  obtain ⟨l0, hl0, hlid, hldel, c1, hc1, hc1id, hc1uid⟩ := hexL
  have hg1 : delete_cluster db cid now = cascadeSoftDelete db cid now := by
    rw [delete_cluster, if_pos]
    exact List.any_eq_true.mpr ⟨c0, hc0, by simp [hcid, hcdel]⟩
  have hg2 : trash_cluster db cid uid now = cascadeSoftDelete db cid now := by
    rw [trash_cluster, if_pos]
    exact List.any_eq_true.mpr ⟨c0, hc0, by simp [hcid, huid, hcdel]⟩
  have hfind : db.links.find? (fun l => l._id == lid && !l.deleted) = some l0 :=
    find?_key_unique LinkDoc._id lid _ db.links hndL
      (fun y hy => by
        simp only [Bool.and_eq_true, beq_iff_eq] at hy
        exact hy.1)
      l0 hl0 (by simp [hlid, hldel])
  have hg3 : delete_link db lid now =
      { db with
        links := updateFirst (fun l => l._id == lid) (markLink now) db.links
        linkPerf := db.linkPerf.map (fun p =>
          if p.linkId == lid && !(p.deleted == some true) then markPerf now p
          else p) } := by
    rw [delete_link, if_pos]
    exact List.any_eq_true.mpr ⟨l0, hl0, by simp [hlid, hldel]⟩
  have hg4 : trash_link db lid uid now =
      { db with
        links := updateFirst (fun l2 => l2._id == lid) (markLink now) db.links
        linkPerf := db.linkPerf.map (fun p =>
          if p.linkId == lid && !(p.deleted == some true) then markPerf now p
          else p) } := by
    rw [trash_link, hfind]
    dsimp only
    rw [if_pos]
    exact List.any_eq_true.mpr ⟨c1, hc1, by simp [hc1id, hc1uid]⟩
  have hcascade :
      FramePreserved db.clusters (cascadeSoftDelete db cid now).clusters
        (fun c => c._id == cid)
        (fun c => { c with deleted := true, deletedAt := some now }) ∧
      FramePreserved db.links (cascadeSoftDelete db cid now).links
        (fun l => l.clusterId == cid && !l.deleted)
        (fun l => { l with deleted := true, deletedAt := some now }) ∧
      FramePreserved db.linkPerf (cascadeSoftDelete db cid now).linkPerf
        (fun p =>
          (clusterAllLinkIds (softDeleteLinks db.links cid now) cid).contains
            p.linkId && !(p.deleted == some true))
        (fun p => { p with deleted := some true, deletedAt := some now }) := by
    refine ⟨?_, ?_, ?_⟩
    · show FramePreserved db.clusters
        (updateFirst (fun c => c._id == cid) (markCluster now) db.clusters) _ _
      rw [updateFirst_eq_map ClusterDoc._id cid (markCluster now) db.clusters hndC]
      exact FramePreserved_map _ _ _
    · exact FramePreserved_map _ _ _
    · exact FramePreserved_map _ _ _
  refine ⟨?_, ?_, ?_, ?_⟩
  · rw [hg1]; exact hcascade
  · rw [hg2]; exact hcascade
  · rw [hg3]
    refine ⟨?_, FramePreserved_map _ _ _⟩
    show FramePreserved db.links
      (updateFirst (fun l => l._id == lid) (markLink now) db.links) _ _
    rw [updateFirst_eq_map LinkDoc._id lid (markLink now) db.links hndL]
    exact FramePreserved_map _ _ _
  · rw [hg4]
    refine ⟨?_, FramePreserved_map _ _ _⟩
    show FramePreserved db.links
      (updateFirst (fun l2 => l2._id == lid) (markLink now) db.links) _ _
    rw [updateFirst_eq_map LinkDoc._id lid (markLink now) db.links hndL]
    exact FramePreserved_map _ _ _

/-- Witness for C6 at the one-cluster one-link database. -/
theorem C6_soft_delete_marks_in_place_witness :
    (([⟨1, 7, 0, 0, 0, [], false, none, 0, 0⟩] : List ClusterDoc).map
      ClusterDoc._id).Nodup ∧
    (([⟨10, 1, 0, false, none, 0, 0, .processing⟩] : List LinkDoc).map
      LinkDoc._id).Nodup ∧
    (∃ c ∈ ([⟨1, 7, 0, 0, 0, [], false, none, 0, 0⟩] : List ClusterDoc),
      c._id = 1 ∧ c.userId = 7 ∧ c.deleted = false) ∧
    (∃ l ∈ ([⟨10, 1, 0, false, none, 0, 0, .processing⟩] : List LinkDoc),
      l._id = 10 ∧ l.deleted = false ∧
      ∃ c ∈ ([⟨1, 7, 0, 0, 0, [], false, none, 0, 0⟩] : List ClusterDoc),
        c._id = l.clusterId ∧ c.userId = 7) ∧
    FramePreserved ([⟨10, 1, 0, false, none, 0, 0, .processing⟩] : List LinkDoc)
      (delete_link ⟨[⟨1, 7, 0, 0, 0, [], false, none, 0, 0⟩],
        [⟨10, 1, 0, false, none, 0, 0, .processing⟩],
        [⟨10, 5, 0, 0, 0, 0, none, none, 0, 0⟩]⟩ 10 20).links
      (fun l => l._id == 10)
      (fun l => { l with deleted := true, deletedAt := some 20 }) := by
  have h1 : (([⟨1, 7, 0, 0, 0, [], false, none, 0, 0⟩] : List ClusterDoc).map
      ClusterDoc._id).Nodup := by simp
  have h2 : (([⟨10, 1, 0, false, none, 0, 0, .processing⟩] : List LinkDoc).map
      LinkDoc._id).Nodup := by simp
  have h3 : ∃ c ∈ ([⟨1, 7, 0, 0, 0, [], false, none, 0, 0⟩] : List ClusterDoc),
      c._id = 1 ∧ c.userId = 7 ∧ c.deleted = false :=
    ⟨_, List.mem_singleton_self _, rfl, rfl, rfl⟩
  have h4 : ∃ l ∈ ([⟨10, 1, 0, false, none, 0, 0, .processing⟩] : List LinkDoc),
      l._id = 10 ∧ l.deleted = false ∧
      ∃ c ∈ ([⟨1, 7, 0, 0, 0, [], false, none, 0, 0⟩] : List ClusterDoc),
        c._id = l.clusterId ∧ c.userId = 7 :=
    ⟨_, List.mem_singleton_self _, rfl, rfl,
      ⟨_, List.mem_singleton_self _, rfl, rfl⟩⟩
  exact ⟨h1, h2, h3, h4,
    (C6_soft_delete_marks_in_place ⟨[⟨1, 7, 0, 0, 0, [], false, none, 0, 0⟩],
      [⟨10, 1, 0, false, none, 0, 0, .processing⟩],
      [⟨10, 5, 0, 0, 0, 0, none, none, 0, 0⟩]⟩ 1 7 10 20 h1 h2 h3 h4).2.2.1.1⟩

theorem map_key_updateFirst (key : α → β) (p : α → Bool) (f : α → α) (l : List α)
    (h : ∀ x, key (f x) = key x) : (updateFirst p f l).map key = l.map key := by
  induction l with
  | nil => rfl
  | cons x xs ih =>
      by_cases hx : p x = true
      · rw [updateFirst, if_pos hx, List.map_cons, List.map_cons, h x]
      · rw [updateFirst, if_neg hx, List.map_cons, List.map_cons, ih]

theorem updateFirst_key_prop (key : α → Nat) (k : Nat) (f : α → α) (l : List α)
    (hnd : (l.map key).Nodup) (P : α → Prop) (hf : ∀ x, P (f x)) :
    ∀ y ∈ updateFirst (fun x => key x == k) f l, key y = k → P y := by
  intro y hy hk
  rw [updateFirst_eq_map key k f l hnd] at hy
  obtain ⟨x, hx, heq⟩ := List.mem_map.mp hy
  split at heq
  · rw [← heq]; exact hf x
  · rename_i h0
    subst heq
    exact absurd (by simp [hk]) h0

theorem restoreLinks_cluster_not_deleted (links : List LinkDoc) (cid : Nat) :
    ∀ l ∈ restoreLinks links cid, l.clusterId = cid → l.deleted = false := by
  intro l hl hcid
  simp only [restoreLinks] at hl
  obtain ⟨l0, hl0, heq⟩ := List.mem_map.mp hl
  split at heq
  · rw [← heq]
  · rename_i h0
    subst heq
    cases hdel : l0.deleted with
    | false => rfl
    | true => exact absurd (by simp [hcid, hdel]) h0

theorem restorePerf_not_deleted (perf : List PerfDoc) (ids : List Nat) :
    ∀ p ∈ restorePerf perf ids, p.linkId ∈ ids → ¬ p.deleted = some true := by
  intro p hp hmem
  simp only [restorePerf] at hp
  obtain ⟨p0, hp0, heq⟩ := List.mem_map.mp hp
  split at heq
  · subst heq
    simp
  · rename_i h0
    subst heq
    intro hdel
    exact h0 (by simp [List.elem_iff.mpr hmem, hdel, hmem])

/-- C10: for a cluster whose links and performance rows all carry
deleted = false, trashing then restoring the cluster brings every deleted
flag (cluster, links, performance rows) back to false; and without that
precondition the round trip fails: the second conjunct exhibits a database
where a link individually trashed beforehand (deleted = true) comes out of
the trash-restore pair with deleted = false. -/
theorem C10_trash_restore_round_trip (db : DBState) (cid uid now : Nat)
    (hndC : (db.clusters.map ClusterDoc._id).Nodup)
    (hex : ∃ c ∈ db.clusters, c._id = cid ∧ c.userId = uid ∧ c.deleted = false)
    (hlinks : ∀ l ∈ db.links, l.clusterId = cid → l.deleted = false)
    (hperf : ∀ p ∈ db.linkPerf,
      (∃ l ∈ db.links, l.clusterId = cid ∧ l._id = p.linkId) →
      ¬ p.deleted = some true) :
    ((∀ c ∈ (restore_cluster (trash_cluster db cid uid now) cid uid).clusters,
        c._id = cid → c.deleted = false) ∧
     (∀ l ∈ (restore_cluster (trash_cluster db cid uid now) cid uid).links,
        l.clusterId = cid → l.deleted = false) ∧
     (∀ p ∈ (restore_cluster (trash_cluster db cid uid now) cid uid).linkPerf,
        (∃ l ∈ (restore_cluster (trash_cluster db cid uid now) cid uid).links,
          l.clusterId = cid ∧ l._id = p.linkId) → ¬ p.deleted = some true)) ∧
    ((⟨[⟨1, 7, 0, 0, 0, [], false, none, 0, 0⟩],
        [⟨10, 1, 0, false, none, 0, 0, .processing⟩,
         ⟨11, 1, 0, true, some 5, 0, 0, .processing⟩], []⟩ : DBState).links.map
        LinkDoc.deleted = [false, true] ∧
     (restore_cluster (trash_cluster ⟨[⟨1, 7, 0, 0, 0, [], false, none, 0, 0⟩],
        [⟨10, 1, 0, false, none, 0, 0, .processing⟩,
         ⟨11, 1, 0, true, some 5, 0, 0, .processing⟩], []⟩ 1 7 20) 1 7).links.map
        LinkDoc.deleted = [false, false]) := by
  refine ⟨?_, by decide, by decide⟩
  obtain ⟨c0, hc0, hcid, huid, hcdel⟩ := hex
  have hg1 : trash_cluster db cid uid now = cascadeSoftDelete db cid now := by
    rw [trash_cluster, if_pos]
    exact List.any_eq_true.mpr ⟨c0, hc0, by simp [hcid, huid, hcdel]⟩
  have hnd1 : ((cascadeSoftDelete db cid now).clusters.map ClusterDoc._id).Nodup := by
    show ((updateFirst (fun c => c._id == cid) (markCluster now)
      db.clusters).map ClusterDoc._id).Nodup
    rw [map_key_updateFirst ClusterDoc._id (fun c => c._id == cid)
      (markCluster now) db.clusters (fun x => rfl)]
    exact hndC
  have hmem1 : markCluster now c0 ∈ (cascadeSoftDelete db cid now).clusters := by
    show _ ∈ updateFirst (fun c => c._id == cid) (markCluster now) db.clusters
    rw [updateFirst_eq_map ClusterDoc._id cid _ _ hndC]
    exact List.mem_map.mpr ⟨c0, hc0, by rw [if_pos (by simp [hcid])]⟩
  have hg2 : restore_cluster (cascadeSoftDelete db cid now) cid uid =
      { clusters := updateFirst (fun c => c._id == cid)
          (fun c => { c with deleted := false, deletedAt := none })
          (cascadeSoftDelete db cid now).clusters
        links := restoreLinks (cascadeSoftDelete db cid now).links cid
        linkPerf := restorePerf (cascadeSoftDelete db cid now).linkPerf
          (clusterAllLinkIds
            (restoreLinks (cascadeSoftDelete db cid now).links cid) cid) } := by
    rw [restore_cluster, if_pos]
    exact List.any_eq_true.mpr ⟨markCluster now c0, hmem1,
      by simp [markCluster, hcid, huid]⟩
  rw [hg1, hg2]
  refine ⟨?_, restoreLinks_cluster_not_deleted _ _, ?_⟩
  · exact updateFirst_key_prop ClusterDoc._id cid _ _ hnd1
      (fun c => c.deleted = false) (fun x => rfl)
  · intro p hp hex2
    obtain ⟨l, hl, hlcid, hlid⟩ := hex2
    refine restorePerf_not_deleted _ _ p hp ?_
    simp only [clusterAllLinkIds]
    rw [← hlid]
    exact List.mem_map.mpr ⟨l, List.mem_filter.mpr ⟨hl, by simp [hlcid]⟩, rfl⟩

/-- Witness for C10: a cluster whose single link and single performance row
are not soft-deleted; after trash and restore all flags are false again. -/
theorem C10_trash_restore_round_trip_witness :
    (([⟨1, 7, 0, 0, 0, [], false, none, 0, 0⟩] : List ClusterDoc).map
      ClusterDoc._id).Nodup ∧
    (∃ c ∈ ([⟨1, 7, 0, 0, 0, [], false, none, 0, 0⟩] : List ClusterDoc),
      c._id = 1 ∧ c.userId = 7 ∧ c.deleted = false) ∧
    (∀ l ∈ ([⟨10, 1, 0, false, none, 0, 0, .processing⟩] : List LinkDoc),
      l.clusterId = 1 → l.deleted = false) ∧
    (∀ p ∈ ([⟨10, 5, 0, 0, 0, 0, none, none, 0, 0⟩] : List PerfDoc),
      (∃ l ∈ ([⟨10, 1, 0, false, none, 0, 0, .processing⟩] : List LinkDoc),
        l.clusterId = 1 ∧ l._id = p.linkId) → ¬ p.deleted = some true) ∧
    (∀ l ∈ (restore_cluster (trash_cluster
        ⟨[⟨1, 7, 0, 0, 0, [], false, none, 0, 0⟩],
         [⟨10, 1, 0, false, none, 0, 0, .processing⟩],
         [⟨10, 5, 0, 0, 0, 0, none, none, 0, 0⟩]⟩ 1 7 20) 1 7).links,
      l.clusterId = 1 → l.deleted = false) := by
  have h1 : (([⟨1, 7, 0, 0, 0, [], false, none, 0, 0⟩] : List ClusterDoc).map
      ClusterDoc._id).Nodup := by simp
  have h2 : ∃ c ∈ ([⟨1, 7, 0, 0, 0, [], false, none, 0, 0⟩] : List ClusterDoc),
      c._id = 1 ∧ c.userId = 7 ∧ c.deleted = false :=
    ⟨_, List.mem_singleton_self _, rfl, rfl, rfl⟩
  have h3 : ∀ l ∈ ([⟨10, 1, 0, false, none, 0, 0, .processing⟩] : List LinkDoc),
      l.clusterId = 1 → l.deleted = false := by decide
  have h4 : ∀ p ∈ ([⟨10, 5, 0, 0, 0, 0, none, none, 0, 0⟩] : List PerfDoc),
      (∃ l ∈ ([⟨10, 1, 0, false, none, 0, 0, .processing⟩] : List LinkDoc),
        l.clusterId = 1 ∧ l._id = p.linkId) → ¬ p.deleted = some true := by
    intro p hp hex
    rw [List.mem_singleton] at hp
    subst hp
    simp
  exact ⟨h1, h2, h3, h4,
    (C10_trash_restore_round_trip
      ⟨[⟨1, 7, 0, 0, 0, [], false, none, 0, 0⟩],
       [⟨10, 1, 0, false, none, 0, 0, .processing⟩],
       [⟨10, 5, 0, 0, 0, 0, none, none, 0, 0⟩]⟩ 1 7 20 h1 h2 h3 h4).1.2.1⟩

/-- Counterexample to C4 as stated: a run in which the only failing step is
the GSC query itself (it raises; queryRows gives none) does NOT set the link
status to error: query_for_country swallows the exception and returns no
rows, the bulk operation list stays empty, and the status-update block is
skipped entirely, leaving the link at processing. -/
theorem C4_counterexample_query_failure_not_flagged :
    (⟨true, true, true, true, fun _ => none, true⟩ : FetchEnv).queryRows none =
      none ∧
    (runFetch ⟨true, true, true, true, fun _ => none, true⟩
      ⟨10, 1, 0, false, none, 0, 0, .processing⟩
      ⟨1, 7, 0, 0, 0, [], false, none, 0, 0⟩ [] 5).status =
      LinkStatus.processing ∧
    LinkStatus.processing ≠ LinkStatus.error := by
  exact ⟨rfl, rfl, by decide⟩

/-- C4 as amended: every reached GSC query is attempted exactly once (one
query per country code, one for ALL, no retry); missing credentials,
incomplete credentials, a failing API initialization, and a failing database
write each set the status to error; the status becomes complete only when
the aggregated data was written; but a raising GSC query only yields no rows
for its country, and when no rows aggregate at all nothing is written and
the status stays processing (not error). -/
theorem C4_single_attempt_status_flags (env : FetchEnv) (link : LinkDoc)
    (cluster : ClusterDoc) (coll : List PerfDoc) (now : Nat)
    (hstart : link.status = .processing) :
    ((runFetch env link cluster coll now).queryCalls = 0 ∨
      (runFetch env link cluster coll now).queryCalls = fetchQueryCalls cluster) ∧
    (env.sessionAvailable = true → env.credentialsPresent = false →
      (runFetch env link cluster coll now).status = .error) ∧
    (env.sessionAvailable = true → env.credentialsPresent = true →
      env.credentialsComplete = false →
      (runFetch env link cluster coll now).status = .error) ∧
    (env.sessionAvailable = true → env.credentialsPresent = true →
      env.credentialsComplete = true → env.initSucceeds = false →
      (runFetch env link cluster coll now).status = .error) ∧
    (env.sessionAvailable = true → env.credentialsPresent = true →
      env.credentialsComplete = true → env.initSucceeds = true →
      env.writeSucceeds = false →
      (aggregateRows (fetchAllRows env cluster)).isEmpty = false →
      (runFetch env link cluster coll now).status = .error) ∧
    ((runFetch env link cluster coll now).status = .complete →
      env.writeSucceeds = true ∧
      (aggregateRows (fetchAllRows env cluster)).isEmpty = false ∧
      (runFetch env link cluster coll now).perf =
        writeAggregated coll link._id (aggregateRows (fetchAllRows env cluster))
          now) ∧
    (env.sessionAvailable = true → env.credentialsPresent = true →
      env.credentialsComplete = true → env.initSucceeds = true →
      (aggregateRows (fetchAllRows env cluster)).isEmpty = true →
      (runFetch env link cluster coll now).status = .processing ∧
      (runFetch env link cluster coll now).perf = coll) := by
  cases hs : env.sessionAvailable <;>
  cases hp : env.credentialsPresent <;>
  cases hc : env.credentialsComplete <;>
  cases hi : env.initSucceeds <;>
  cases hw : env.writeSucceeds <;>
  cases he : (aggregateRows (fetchAllRows env cluster)).isEmpty <;>
    simp [runFetch, hs, hp, hc, hi, hw, he, hstart]

/-- Witness for the amended C4: a run where everything succeeds and one row
is fetched. -/
theorem C4_single_attempt_status_flags_witness :
    (⟨10, 1, 0, false, none, 0, 0, .processing⟩ : LinkDoc).status =
      LinkStatus.processing ∧
    ((runFetch ⟨true, true, true, true, fun _ => some [⟨1, 2, 10, 4⟩], true⟩
        ⟨10, 1, 0, false, none, 0, 0, .processing⟩
        ⟨1, 7, 0, 0, 0, [], false, none, 0, 0⟩ [] 9).queryCalls = 0 ∨
      (runFetch ⟨true, true, true, true, fun _ => some [⟨1, 2, 10, 4⟩], true⟩
        ⟨10, 1, 0, false, none, 0, 0, .processing⟩
        ⟨1, 7, 0, 0, 0, [], false, none, 0, 0⟩ [] 9).queryCalls =
        fetchQueryCalls ⟨1, 7, 0, 0, 0, [], false, none, 0, 0⟩) :=
  ⟨rfl, (C4_single_attempt_status_flags
    ⟨true, true, true, true, fun _ => some [⟨1, 2, 10, 4⟩], true⟩
    ⟨10, 1, 0, false, none, 0, 0, .processing⟩
    ⟨1, 7, 0, 0, 0, [], false, none, 0, 0⟩ [] 9 rfl).1⟩

/-- Counterexample to C5 as stated: the performance row inserted by the
aggregation upsert (filter fields + dollar-set + dollar-setOnInsert) carries
createdAt and updatedAt but no deleted field at all (and no deletedAt):
the upsert never writes the soft-delete flag. -/
theorem C5_counterexample_upserted_row_lacks_deleted :
    upsertOne [] 1 5 ⟨2, 10, 0, 3⟩ 9 = [newPerfDoc 1 5 ⟨2, 10, 0, 3⟩ 9] ∧
    (newPerfDoc 1 5 ⟨2, 10, 0, 3⟩ 9).deleted.isSome = false ∧
    (newPerfDoc 1 5 ⟨2, 10, 0, 3⟩ 9).deletedAt.isSome = false ∧
    (newPerfDoc 1 5 ⟨2, 10, 0, 3⟩ 9).createdAt = 9 ∧
    (newPerfDoc 1 5 ⟨2, 10, 0, 3⟩ 9).updatedAt = 9 :=
  ⟨rfl, rfl, rfl, rfl, rfl⟩

/-- C5 as amended: cluster and link inserts write a full flat record with a
deleted flag (false), a null deletedAt and createdAt/updatedAt timestamps;
the aggregation upsert also writes createdAt/updatedAt on insert but writes
no deleted or deletedAt field (the row is still treated as live, since every
read and update filter matches deleted ne true). -/
theorem C5_flat_records_with_flags_and_timestamps (cid uid dom name device : Nat)
    (cc : List Nat) (now lid lcid url d : Nat) (m : PerfMetrics)
    (coll : List PerfDoc) (h : coll.find? (matchesKey lid d) = none) :
    (mkClusterDoc cid uid dom name device cc now).deleted = false ∧
    (mkClusterDoc cid uid dom name device cc now).deletedAt = none ∧
    (mkClusterDoc cid uid dom name device cc now).createdAt = now ∧
    (mkClusterDoc cid uid dom name device cc now).updatedAt = now ∧
    (mkLinkDoc lid lcid url now).deleted = false ∧
    (mkLinkDoc lid lcid url now).deletedAt = none ∧
    (mkLinkDoc lid lcid url now).createdAt = now ∧
    (mkLinkDoc lid lcid url now).updatedAt = now ∧
    (mkLinkDoc lid lcid url now).status = .processing ∧
    upsertOne coll lid d m now = coll ++ [newPerfDoc lid d m now] ∧
    (newPerfDoc lid d m now).createdAt = now ∧
    (newPerfDoc lid d m now).updatedAt = now ∧
    (newPerfDoc lid d m now).deleted = none ∧
    (newPerfDoc lid d m now).deletedAt = none := by
  refine ⟨rfl, rfl, rfl, rfl, rfl, rfl, rfl, rfl, rfl, ?_, rfl, rfl, rfl, rfl⟩
  exact upsertOne_find?_self_none _ _ _ _ _ h

/-- Witness for the amended C5 at the empty collection. -/
theorem C5_flat_records_witness :
    (([] : List PerfDoc).find? (matchesKey 3 4) = none) ∧
    upsertOne [] 3 4 ⟨1, 2, 0, 0⟩ 8 = [newPerfDoc 3 4 ⟨1, 2, 0, 0⟩ 8] ∧
    (newPerfDoc 3 4 ⟨1, 2, 0, 0⟩ 8).deleted = none :=
  ⟨rfl,
    ((C5_flat_records_with_flags_and_timestamps 0 0 0 0 0 [] 8 3 0 0 4
      ⟨1, 2, 0, 0⟩ [] rfl).2.2.2.2.2.2.2.2.2).1,
    rfl⟩

theorem lookupAcc_eq_none_iff (m : List (Nat × Acc)) (d : Nat) :
    lookupAcc m d = none ↔ d ∉ m.map Prod.fst := by
  induction m with
  | nil => simp [lookupAcc]
  | cons kv rest ih =>
      obtain ⟨k, v⟩ := kv
      by_cases hk : k = d
      · subst hk; simp [lookupAcc]
      · simp [lookupAcc, hk, ih, Ne.symm hk]

theorem lookupAcc_of_mem_nodup (m : List (Nat × Acc)) (d : Nat) (a : Acc)
    (hnd : (m.map Prod.fst).Nodup) (hmem : (d, a) ∈ m) :
    lookupAcc m d = some a := by
  induction m with
  | nil => simp at hmem
  | cons kv rest ih =>
      obtain ⟨k, v⟩ := kv
      simp only [List.map_cons, List.nodup_cons] at hnd
      rcases List.mem_cons.mp hmem with heq | hmem2
      · rw [Prod.mk.injEq] at heq
        obtain ⟨h1, h2⟩ := heq
        subst h1; subst h2
        simp [lookupAcc]
      · have hk : ¬ k = d := by
          intro he
          exact hnd.1 (he ▸ List.mem_map.mpr ⟨(d, a), hmem2, rfl⟩)
        simp [lookupAcc, hk, ih hnd.2 hmem2]

theorem totals_perfToRow (docs : List PerfDoc) (d : Nat) :
    totalClicks (docs.map perfToRow) d = perfClicksAt docs d ∧
    totalImpressions (docs.map perfToRow) d = perfImpressionsAt docs d ∧
    totalWeightedPosition (docs.map perfToRow) d = perfWeightedPositionAt docs d := by
  refine ⟨?_, ?_, ?_⟩ <;>
    simp [totalClicks, totalImpressions, totalWeightedPosition, rowsAt,
      perfClicksAt, perfImpressionsAt, perfWeightedPositionAt,
      List.filter_map, Function.comp_def, perfToRow]

/-- C7: the cluster performance page displays one row per date occurring
among the selected performance documents (the non-deleted rows of the
non-deleted links of the cluster inside the date range), with clicks and
impressions summed across the documents of the date, ctr the quotient of
the totals and position the impression-weighted average when the total
impressions are nonzero (both 0 when they are zero), and the rows sorted by
date descending. -/
theorem C7_cluster_page_per_date (db : DBState) (cid startD endD : Nat) :
    ((clusterResultRows db cid startD endD).map ResultRow.date).Nodup ∧
    (∀ d : Nat, d ∈ (clusterResultRows db cid startD endD).map ResultRow.date ↔
      ∃ p ∈ clusterPerfDocs db cid startD endD, p.date = d) ∧
    (∀ r ∈ clusterResultRows db cid startD endD,
      r.clicks = perfClicksAt (clusterPerfDocs db cid startD endD) r.date ∧
      r.impressions =
        perfImpressionsAt (clusterPerfDocs db cid startD endD) r.date ∧
      (perfImpressionsAt (clusterPerfDocs db cid startD endD) r.date ≠ 0 →
        r.ctr = perfClicksAt (clusterPerfDocs db cid startD endD) r.date /
          perfImpressionsAt (clusterPerfDocs db cid startD endD) r.date ∧
        r.position =
          perfWeightedPositionAt (clusterPerfDocs db cid startD endD) r.date /
          perfImpressionsAt (clusterPerfDocs db cid startD endD) r.date) ∧
      (perfImpressionsAt (clusterPerfDocs db cid startD endD) r.date = 0 →
        r.ctr = 0 ∧ r.position = 0)) ∧
    List.Pairwise (fun a b => b.date ≤ a.date)
      (clusterResultRows db cid startD endD) := by
  have hperm : (clusterResultRows db cid startD endD).Perm
      ((aggregateRows ((clusterPerfDocs db cid startD endD).map perfToRow)).map
        (fun da => mkResultRow da.1 da.2)) := by
    simp only [clusterResultRows]
    exact List.mergeSort_perm _ _
  have hdates : (((aggregateRows
      ((clusterPerfDocs db cid startD endD).map perfToRow)).map
        (fun da => mkResultRow da.1 da.2)).map ResultRow.date) =
      (aggregateRows ((clusterPerfDocs db cid startD endD).map perfToRow)).map
        Prod.fst := by
    rw [List.map_map]
    rfl
  refine ⟨?_, ?_, ?_, ?_⟩
  · exact ((List.Perm.map ResultRow.date hperm).nodup_iff).mpr
      (by rw [hdates]; exact aggregateRows_keys_nodup _)
  · intro d
    rw [(List.Perm.map ResultRow.date hperm).mem_iff, hdates]
    constructor
    · intro hd
      by_cases hany : ((clusterPerfDocs db cid startD endD).map perfToRow).any
          (fun r => r.date == d) = true
      · obtain ⟨r, hr, hrd⟩ := List.any_eq_true.mp hany
        obtain ⟨p, hp, hpr⟩ := List.mem_map.mp hr
        rw [beq_iff_eq] at hrd
        exact ⟨p, hp, by rw [← hrd, ← hpr]; rfl⟩
      · have hnone : lookupAcc (aggregateRows
            ((clusterPerfDocs db cid startD endD).map perfToRow)) d = none := by
          rw [lookupAcc_aggregateRows, if_neg hany]
        exact absurd hd ((lookupAcc_eq_none_iff _ _).mp hnone)
    · rintro ⟨p, hp, hpd⟩
      have hany : ((clusterPerfDocs db cid startD endD).map perfToRow).any
          (fun r => r.date == d) = true :=
        List.any_eq_true.mpr ⟨perfToRow p, List.mem_map.mpr ⟨p, hp, rfl⟩,
          by simp [perfToRow, hpd]⟩
      have hlook : lookupAcc (aggregateRows
          ((clusterPerfDocs db cid startD endD).map perfToRow)) d =
          some (accTotals ((clusterPerfDocs db cid startD endD).map perfToRow) d) := by
        rw [lookupAcc_aggregateRows, if_pos hany]
      by_contra hnot
      exact absurd ((lookupAcc_eq_none_iff _ _).mpr hnot)
        (by rw [hlook]; simp)
  · intro r hr
    have hr2 : r ∈ (aggregateRows
        ((clusterPerfDocs db cid startD endD).map perfToRow)).map
          (fun da => mkResultRow da.1 da.2) := hperm.mem_iff.mp hr
    obtain ⟨da, hda, heq⟩ := List.mem_map.mp hr2
    have hlook := lookupAcc_of_mem_nodup _ da.1 da.2
      (aggregateRows_keys_nodup ((clusterPerfDocs db cid startD endD).map perfToRow))
      hda
    rw [lookupAcc_aggregateRows] at hlook
    have hda2 : da.2 = accTotals
        ((clusterPerfDocs db cid startD endD).map perfToRow) da.1 := by
      by_cases hany : ((clusterPerfDocs db cid startD endD).map perfToRow).any
          (fun rr => rr.date == da.1) = true
      · rw [if_pos hany] at hlook
        exact (Option.some.injEq _ _ ▸ hlook).symm
      · rw [if_neg hany] at hlook
        exact absurd hlook (by simp)
    obtain ⟨ht1, ht2, ht3⟩ :=
      totals_perfToRow (clusterPerfDocs db cid startD endD) da.1
    subst heq
    have hdate : (mkResultRow da.1 da.2).date = da.1 := rfl
    rw [hdate]
    refine ⟨?_, ?_, ?_, ?_⟩
    · rw [show (mkResultRow da.1 da.2).clicks = da.2.clicks from rfl, hda2, ← ht1]
      rfl
    · rw [show (mkResultRow da.1 da.2).impressions = da.2.impressions from rfl,
        hda2, ← ht2]
      rfl
    · intro hi
      have hi2 : da.2.impressions ≠ 0 := by
        rw [hda2]
        show totalImpressions _ da.1 ≠ 0
        rw [ht2]; exact hi
      constructor
      · rw [show (mkResultRow da.1 da.2).ctr =
            (if da.2.impressions ≠ 0 then da.2.clicks / da.2.impressions else 0)
            from rfl, if_pos hi2, hda2]
        show totalClicks _ da.1 / totalImpressions _ da.1 = _
        rw [ht1, ht2]
      · rw [show (mkResultRow da.1 da.2).position =
            (if da.2.impressions ≠ 0 then
              da.2.weighted_position_sum / da.2.impressions else 0)
            from rfl, if_pos hi2, hda2]
        show totalWeightedPosition _ da.1 / totalImpressions _ da.1 = _
        rw [ht3, ht2]
    · intro hi
      have hi2 : ¬ da.2.impressions ≠ 0 := by
        rw [hda2]
        show ¬ totalImpressions _ da.1 ≠ 0
        rw [ht2]
        exact fun hh => hh hi
      constructor
      · rw [show (mkResultRow da.1 da.2).ctr =
            (if da.2.impressions ≠ 0 then da.2.clicks / da.2.impressions else 0)
            from rfl, if_neg hi2]
      · rw [show (mkResultRow da.1 da.2).position =
            (if da.2.impressions ≠ 0 then
              da.2.weighted_position_sum / da.2.impressions else 0)
            from rfl, if_neg hi2]
  · simp only [clusterResultRows]
    refine List.Pairwise.imp ?_ (List.sorted_mergeSort ?_ ?_ _)
    · intro a b hab
      exact of_decide_eq_true hab
    · intro a b c h1 h2
      simp only [decide_eq_true_iff] at h1 h2 ⊢
      omega
    · intro a b
      simp only [Bool.or_eq_true, decide_eq_true_iff]
      omega
